import Mathlib

/-!
A shallow embedding of the core of the `kine/instruction-sync` VS Code
extension (the latest variant of `src/extension.ts`, the one exported to and
exercised by the test suite): destination resolution, URL classification,
content validation, remote-config parsing, source merging, the
per-sync-session confirmation state machine, and the sync orchestrator loop.

JavaScript strings are modelled as Lean `String`s; `toLowerCase`, `trim`,
`startsWith` and `includes` are re-implemented over `List Char` so that
their structure is available to proofs.  `Char.toLower` lowercases exactly
the ASCII letters, which covers every string constant the program compares
against.  `undefined`/absent optional values are modelled with `Option`.
-/

namespace InstructionSync

/-- JavaScript whitespace characters relevant to `String.prototype.trim`
(the ASCII ones; the strings of interest contain no exotic Unicode space
characters). -/
def isJsWs (c : Char) : Bool :=
  c = ' ' || c = '\t' || c = '\n' || c = '\r' || c = '\x0b' || c = '\x0c'

/-- `trim` over a character list: drop whitespace from both ends. -/
def trimChars (l : List Char) : List Char :=
  ((l.dropWhile isJsWs).reverse.dropWhile isJsWs).reverse

/-- JS `String.prototype.trim`. -/
def jsTrim (s : String) : String :=
  String.mk (trimChars s.data)

/-- JS `String.prototype.toLowerCase` (ASCII). -/
def jsLower (s : String) : String :=
  String.mk (s.data.map Char.toLower)

/-- Is `p` a prefix of `l`? -/
def listIsPref (p l : List Char) : Bool :=
  match p, l with
  | [], _ => true
  | _ :: _, [] => false
  | a :: p', b :: l' => a = b && listIsPref p' l'

/-- Does `sub` occur as a contiguous sublist of `l`? -/
def listHasSub (l sub : List Char) : Bool :=
  match l with
  | [] => listIsPref sub []
  | _ :: l' => listIsPref sub l || listHasSub l' sub

/-- JS `String.prototype.startsWith`. -/
def jsStarts (s p : String) : Bool :=
  listIsPref p.data s.data

/-- JS `String.prototype.includes`. -/
def jsIncludes (s sub : String) : Bool :=
  listHasSub s.data sub.data

/-! ### Lemmas about the string primitives -/

theorem listHasSub_of_isPref {l sub : List Char} (h : listIsPref sub l = true) :
    listHasSub l sub = true := by
  cases l with
  | nil =>
    cases sub with
    | nil => rfl
    | cons a s => simp [listIsPref] at h
  | cons b l' => simp [listHasSub, h]

theorem listHasSub_cons {l sub : List Char} (c : Char) (h : listHasSub l sub = true) :
    listHasSub (c :: l) sub = true := by
  simp [listHasSub, h]

theorem listIsPref_append {p l : List Char} (post : List Char)
    (h : listIsPref p l = true) : listIsPref p (l ++ post) = true := by
  induction p generalizing l with
  | nil => rfl
  | cons a p ih =>
    cases l with
    | nil => simp [listIsPref] at h
    | cons b l' =>
      simp only [listIsPref, Bool.and_eq_true] at h
      simp only [List.cons_append, listIsPref, Bool.and_eq_true]
      exact ⟨h.1, ih h.2⟩

/-- Substring occurrence is preserved when extending the ambient list on the left. -/
theorem listHasSub_append_left (pre l sub : List Char) (h : listHasSub l sub = true) :
    listHasSub (pre ++ l) sub = true := by
  induction pre with
  | nil => simpa using h
  | cons c pre ih => simpa [List.cons_append] using listHasSub_cons c ih

/-- Substring occurrence is preserved when extending the ambient list on the right. -/
theorem listHasSub_append_right (l post sub : List Char) (h : listHasSub l sub = true) :
    listHasSub (l ++ post) sub = true := by
  induction l with
  | nil =>
    cases sub with
    | nil => exact listHasSub_of_isPref rfl
    | cons a s => simp [listHasSub, listIsPref] at h
  | cons c l ih =>
    simp only [listHasSub, Bool.or_eq_true] at h
    rcases h with h | h
    · have := listIsPref_append (l := c :: l) post h
      simp only [List.cons_append] at this ⊢
      simp [listHasSub, this]
    · simp only [List.cons_append, listHasSub, Bool.or_eq_true]
      exact Or.inr (ih h)

/-- The trimmed list is a contiguous piece of the original: the original is
`pre ++ trimChars l ++ post`. -/
theorem trimChars_infix (l : List Char) :
    ∃ pre post, l = pre ++ trimChars l ++ post := by
  refine ⟨l.takeWhile isJsWs,
    ((l.dropWhile isJsWs).reverse.takeWhile isJsWs).reverse, ?_⟩
  have h1 : l = l.takeWhile isJsWs ++ l.dropWhile isJsWs :=
    (List.takeWhile_append_dropWhile (p := isJsWs) (l := l)).symm
  have h3 : ∀ m : List Char,
      m = (m.reverse.dropWhile isJsWs).reverse ++ (m.reverse.takeWhile isJsWs).reverse := by
    intro m
    conv_lhs => rw [← List.reverse_reverse m,
      ← List.takeWhile_append_dropWhile (p := isJsWs) (l := m.reverse)]
    rw [List.reverse_append]
  calc l = l.takeWhile isJsWs ++ l.dropWhile isJsWs := h1
    _ = l.takeWhile isJsWs ++
          (((l.dropWhile isJsWs).reverse.dropWhile isJsWs).reverse ++
            ((l.dropWhile isJsWs).reverse.takeWhile isJsWs).reverse) := by
        rw [← h3 (l.dropWhile isJsWs)]
    _ = l.takeWhile isJsWs ++ trimChars l ++
          ((l.dropWhile isJsWs).reverse.takeWhile isJsWs).reverse := by
        simp [trimChars]

/-- Anything occurring in the trimmed string occurs in the original string. -/
theorem jsIncludes_of_trim {s sub : String}
    (h : listHasSub (trimChars s.data) sub.data = true) :
    jsIncludes s sub = true := by
  obtain ⟨pre, post, hs⟩ := trimChars_infix s.data
  unfold jsIncludes
  rw [hs, List.append_assoc]
  exact listHasSub_append_left _ _ _ (listHasSub_append_right _ _ _ h)

theorem toNat_ofNat_small (n : Nat) (h : n < 128) : (Char.ofNat n).toNat = n := by
  unfold Char.ofNat
  rw [dif_pos (Or.inl (by omega : n < 0xd800))]
  simp [Char.toNat, Char.ofNatAux, UInt32.toNat, UInt32.ofNat', BitVec.toNat_ofNat]

theorem isJsWs_toNat_lt {d : Char} (hd : isJsWs d = true) : d.toNat < 65 := by
  simp only [isJsWs, Bool.or_eq_true, decide_eq_true_eq] at hd
  rcases hd with ((((h|h)|h)|h)|h)|h <;> subst h <;> decide

/-- ASCII lowercasing maps whitespace to whitespace and non-whitespace to
non-whitespace. -/
theorem isJsWs_toLower (c : Char) : isJsWs c.toLower = isJsWs c := by
  unfold Char.toLower
  by_cases h : c.toNat ≥ 65 ∧ c.toNat ≤ 90
  · rw [if_pos h]
    have hm : (Char.ofNat (c.toNat + 32)).toNat = c.toNat + 32 :=
      toNat_ofNat_small _ (by omega)
    cases hval : isJsWs c with
    | true => exact absurd (isJsWs_toNat_lt hval) (by omega)
    | false =>
      cases hval2 : isJsWs (Char.ofNat (c.toNat + 32)) with
      | true => exact absurd (isJsWs_toNat_lt hval2) (by rw [hm]; omega)
      | false => rfl
  · rw [if_neg h]

theorem dropWhile_isJsWs_map_toLower (l : List Char) :
    (l.map Char.toLower).dropWhile isJsWs = (l.dropWhile isJsWs).map Char.toLower := by
  induction l with
  | nil => rfl
  | cons c l ih =>
    rw [List.map_cons, List.dropWhile_cons, List.dropWhile_cons, isJsWs_toLower]
    by_cases h : isJsWs c = true
    · simp [h, ih]
    · simp [h]

/-- `trim` commutes with ASCII lowercasing. -/
theorem trimChars_map_toLower (l : List Char) :
    trimChars (l.map Char.toLower) = (trimChars l).map Char.toLower := by
  unfold trimChars
  rw [dropWhile_isJsWs_map_toLower, ← List.map_reverse, dropWhile_isJsWs_map_toLower,
    ← List.map_reverse]

theorem jsTrim_jsLower (s : String) : jsTrim (jsLower s) = jsLower (jsTrim s) := by
  simp [jsTrim, jsLower, trimChars_map_toLower]

/-- A string starting with a non-empty prefix is non-empty. -/
theorem ne_nil_of_listIsPref {a : Char} {p l : List Char}
    (h : listIsPref (a :: p) l = true) : ∃ l', l = a :: l' := by
  cases l with
  | nil => simp [listIsPref] at h
  | cons b l' =>
    simp only [listIsPref, Bool.and_eq_true, decide_eq_true_eq] at h
    exact ⟨l', by rw [h.1]⟩

theorem listIsPref_cons_ne {a b : Char} (p l : List Char) (hab : a ≠ b) :
    listIsPref (a :: p) (b :: l) = false := by
  simp [listIsPref, hab]

end InstructionSync

namespace InstructionSync

/-! ### A model of JS `JSON.parse` and the JS value operations the program uses

JSON numbers are stored as their lexeme together with a flag telling whether
the mantissa is zero: the program only ever uses a parsed number through JS
truthiness (`0`, `-0` are falsy) and string interpolation.  Extreme exponents
that underflow to zero in an IEEE double are modelled as non-zero, and the
lexeme is kept verbatim instead of re-rendered the way JS canonicalizes
numerals; no behaviour settled here depends on either corner. -/

inductive Json where
  | null
  | bool (b : Bool)
  | num (isZero : Bool) (raw : String)
  | str (s : String)
  | arr (xs : List Json)
  | obj (fields : List (String × Json))

/-- JS property access `v[k]` on a parsed JSON value: `none` is `undefined`.
With duplicate keys in a JSON object literal the last one wins, as in JS. -/
def getField (v : Json) (k : String) : Option Json :=
  match v with
  | Json.obj fields => (fields.reverse.find? (fun p => p.1 == k)).map Prod.snd
  | _ => none

/-- JS truthiness of a possibly-`undefined` parsed JSON value. -/
def truthy : Option Json → Bool
  | none => false
  | some Json.null => false
  | some (Json.bool b) => b
  | some (Json.num isZero _) => !isZero
  | some (Json.str s) => s ≠ ""
  | some (Json.arr _) => true
  | some (Json.obj _) => true

mutual

/-- JS string coercion of a value, as used in template interpolation. -/
def jsToString : Json → String
  | Json.null => "null"
  | Json.bool true => "true"
  | Json.bool false => "false"
  | Json.num _ raw => raw
  | Json.str s => s
  | Json.arr xs => jsArrToString xs
  | Json.obj _ => "[object Object]"

/-- JS `Array.prototype.toString`: elements joined with `,`, `null` rendered
as the empty string. -/
def jsArrToString : List Json → String
  | [] => ""
  | [Json.null] => ""
  | [v] => jsToString v
  | Json.null :: rest => "," ++ jsArrToString rest
  | v :: rest => jsToString v ++ "," ++ jsArrToString rest

end

/-- The whitespace `JSON.parse` skips between tokens. -/
def isJsonWs (c : Char) : Bool :=
  c = ' ' || c = '\t' || c = '\n' || c = '\r'

def skipWs (cs : List Char) : List Char := cs.dropWhile isJsonWs

def hexVal (c : Char) : Option Nat :=
  if '0' ≤ c ∧ c ≤ '9' then some (c.toNat - 48)
  else if 'a' ≤ c ∧ c ≤ 'f' then some (c.toNat - 87)
  else if 'A' ≤ c ∧ c ≤ 'F' then some (c.toNat - 55)
  else none

def isDigit (c : Char) : Bool := '0' ≤ c && c ≤ '9'

/-- Decode the body of a JSON string literal (after the opening quote),
returning the decoded characters and the remaining input after the closing
quote.  Surrogate pairs in `\u` escapes are combined; a lone surrogate, which
JS would keep as a lone UTF-16 unit, becomes U+FFFD since Lean characters are
code points. -/
def parseStrBodyFuel : Nat → List Char → Option (List Char × List Char)
  | 0, _ => none
  | Nat.succ _, [] => none
  | Nat.succ fuel, c :: rest =>
    if c = '"' then some ([], rest)
    else if c = '\\' then
      match rest with
      | [] => none
      | e :: rest2 =>
        if e = '"' then (parseStrBodyFuel fuel rest2).map (fun p => ('"' :: p.1, p.2))
        else if e = '\\' then (parseStrBodyFuel fuel rest2).map (fun p => ('\\' :: p.1, p.2))
        else if e = '/' then (parseStrBodyFuel fuel rest2).map (fun p => ('/' :: p.1, p.2))
        else if e = 'b' then (parseStrBodyFuel fuel rest2).map (fun p => ('\x08' :: p.1, p.2))
        else if e = 'f' then (parseStrBodyFuel fuel rest2).map (fun p => ('\x0c' :: p.1, p.2))
        else if e = 'n' then (parseStrBodyFuel fuel rest2).map (fun p => ('\n' :: p.1, p.2))
        else if e = 'r' then (parseStrBodyFuel fuel rest2).map (fun p => ('\x0d' :: p.1, p.2))
        else if e = 't' then (parseStrBodyFuel fuel rest2).map (fun p => ('\t' :: p.1, p.2))
        else if e = 'u' then
          match rest2 with
          | h1 :: h2 :: h3 :: h4 :: rest3 =>
            match hexVal h1, hexVal h2, hexVal h3, hexVal h4 with
            | some a, some b, some c', some d =>
              let n := ((a * 16 + b) * 16 + c') * 16 + d
              if 0xd800 ≤ n ∧ n ≤ 0xdbff then
                match rest3 with
                | '\\' :: 'u' :: g1 :: g2 :: g3 :: g4 :: rest4 =>
                  match hexVal g1, hexVal g2, hexVal g3, hexVal g4 with
                  | some a2, some b2, some c2, some d2 =>
                    let m := ((a2 * 16 + b2) * 16 + c2) * 16 + d2
                    if 0xdc00 ≤ m ∧ m ≤ 0xdfff then
                      (parseStrBodyFuel fuel rest4).map (fun p =>
                        (Char.ofNat (0x10000 + (n - 0xd800) * 0x400 + (m - 0xdc00)) :: p.1, p.2))
                    else (parseStrBodyFuel fuel rest4).map (fun p => ('\ufffd' :: p.1, p.2))
                  | _, _, _, _ => none
                | _ => (parseStrBodyFuel fuel rest3).map (fun p => ('\ufffd' :: p.1, p.2))
              else if 0xdc00 ≤ n ∧ n ≤ 0xdfff then
                (parseStrBodyFuel fuel rest3).map (fun p => ('\ufffd' :: p.1, p.2))
              else
                (parseStrBodyFuel fuel rest3).map (fun p => (Char.ofNat n :: p.1, p.2))
            | _, _, _, _ => none
          | _ => none
        else none
    else if c.toNat < 32 then none
    else (parseStrBodyFuel fuel rest).map (fun p => (c :: p.1, p.2))

/-- Decode the body of a JSON string literal, fuelled by its own length
(each step consumes at least one character). -/
def parseStrBody (cs : List Char) : Option (List Char × List Char) :=
  parseStrBodyFuel (cs.length + 1) cs

/-- Optional fraction part: `none` means the numeral is malformed. -/
def parseFrac (cs : List Char) : Option (List Char × List Char) :=
  match cs with
  | '.' :: r =>
    let ds := r.takeWhile isDigit
    if ds = [] then none else some ('.' :: ds, r.dropWhile isDigit)
  | _ => some ([], cs)

/-- Optional exponent part: `none` means the numeral is malformed. -/
def parseExp (cs : List Char) : Option (List Char × List Char) :=
  match cs with
  | c :: r =>
    if c = 'e' ∨ c = 'E' then
      let (signPart, r2) :=
        match r with
        | s :: r' => if s = '+' ∨ s = '-' then ([s], r') else (([] : List Char), r)
        | [] => ([], r)
      let ds := r2.takeWhile isDigit
      if ds = [] then none else some (c :: signPart ++ ds, r2.dropWhile isDigit)
    else some ([], cs)
  | [] => some ([], cs)

def finishNum (negPart intPart : List Char) (cs : List Char) : Option (Json × List Char) :=
  match parseFrac cs with
  | none => none
  | some (fracPart, cs2) =>
    match parseExp cs2 with
    | none => none
    | some (expPart, cs3) =>
      let mantissa := intPart ++ fracPart.filter isDigit
      some (Json.num (mantissa.all (fun d => d = '0'))
        (String.mk (negPart ++ intPart ++ fracPart ++ expPart)), cs3)

def parseNum (cs : List Char) : Option (Json × List Char) :=
  let (negPart, cs1) :=
    match cs with
    | '-' :: r => (['-'], r)
    | _ => (([] : List Char), cs)
  match cs1 with
  | [] => none
  | c :: r =>
    if c = '0' then finishNum negPart ['0'] r
    else if isDigit c then
      finishNum negPart (c :: r.takeWhile isDigit) (r.dropWhile isDigit)
    else none

mutual

def parseVal : Nat → List Char → Option (Json × List Char)
  | 0, _ => none
  | Nat.succ fuel, cs =>
    match skipWs cs with
    | [] => none
    | c :: rest =>
      if c = '\x7b' then parseObjStart fuel rest
      else if c = '[' then parseArrStart fuel rest
      else if c = '"' then
        (parseStrBody rest).map (fun p => (Json.str (String.mk p.1), p.2))
      else if c = 't' then
        match rest with
        | 'r' :: 'u' :: 'e' :: rest2 => some (Json.bool true, rest2)
        | _ => none
      else if c = 'f' then
        match rest with
        | 'a' :: 'l' :: 's' :: 'e' :: rest2 => some (Json.bool false, rest2)
        | _ => none
      else if c = 'n' then
        match rest with
        | 'u' :: 'l' :: 'l' :: rest2 => some (Json.null, rest2)
        | _ => none
      else parseNum (c :: rest)

def parseObjStart : Nat → List Char → Option (Json × List Char)
  | 0, _ => none
  | Nat.succ fuel, cs =>
    match skipWs cs with
    | '\x7d' :: rest => some (Json.obj [], rest)
    | _ => parseObjMembers fuel cs []

def parseObjMembers : Nat → List Char → List (String × Json) → Option (Json × List Char)
  | 0, _, _ => none
  | Nat.succ fuel, cs, acc =>
    match skipWs cs with
    | '"' :: rest =>
      match parseStrBody rest with
      | none => none
      | some (kdata, rest2) =>
        match skipWs rest2 with
        | ':' :: rest3 =>
          match parseVal fuel rest3 with
          | none => none
          | some (v, rest4) =>
            let acc' := acc ++ [(String.mk kdata, v)]
            match skipWs rest4 with
            | ',' :: rest5 => parseObjMembers fuel rest5 acc'
            | '\x7d' :: rest5 => some (Json.obj acc', rest5)
            | _ => none
        | _ => none
    | _ => none

def parseArrStart : Nat → List Char → Option (Json × List Char)
  | 0, _ => none
  | Nat.succ fuel, cs =>
    match skipWs cs with
    | ']' :: rest => some (Json.arr [], rest)
    | _ => parseArrMembers fuel cs []

def parseArrMembers : Nat → List Char → List Json → Option (Json × List Char)
  | 0, _, _ => none
  | Nat.succ fuel, cs, acc =>
    match parseVal fuel cs with
    | none => none
    | some (v, rest) =>
      let acc' := acc ++ [v]
      match skipWs rest with
      | ',' :: rest2 => parseArrMembers fuel rest2 acc'
      | ']' :: rest2 => some (Json.arr acc', rest2)
      | _ => none

end

/-- JS `JSON.parse`: parse one value, allow surrounding whitespace, demand
the whole input be consumed; `none` models a thrown `SyntaxError`. -/
def parseJson (s : String) : Option Json :=
  match parseVal (2 * s.data.length + 4) s.data with
  | some (v, rest) => if skipWs rest = [] then some v else none
  | none => none

end InstructionSync

namespace InstructionSync

/-! ### Data model (`src/extension.ts`, latest variant) -/

/-- The `InstructionSource` configuration record.  Optional fields are
`undefined` when absent (`Option`); JS distinguishes an absent field from an
empty string, and so does this model. -/
structure InstructionSource where
  language : String
  url : String
  enabled : Option Bool := none
  destinationFolder : Option String := none
  destinationFile : Option String := none
deriving DecidableEq, Repr

structure DestinationPath where
  folder : String
  file : String
  fullPath : String
deriving DecidableEq, Repr

/-- `getDestinationPath(source?)` — `source?.destinationFolder ?? '.github'`,
`source?.destinationFile ?? 'copilot-instructions.md'`, `fullPath` their
slash-join. -/
def getDestinationPath (source : Option InstructionSource := none) : DestinationPath :=
  let folder := (source.bind (fun s => s.destinationFolder)).getD ".github"
  let file := (source.bind (fun s => s.destinationFile)).getD "copilot-instructions.md"
  { folder := folder, file := file, fullPath := folder ++ "/" ++ file }

/-- `isLocalPath`: `file://` URI, a Windows drive path `X:\` or `X:/`, or a
Unix absolute path that is not a `//` network share. -/
def isAsciiLetter (c : Char) : Bool :=
  ('a' ≤ c && c ≤ 'z') || ('A' ≤ c && c ≤ 'Z')

/-- The regex `^[a-zA-Z]:[\\/]` from `isLocalPath`. -/
def winDrivePath (s : String) : Bool :=
  match s.data with
  | c1 :: c2 :: c3 :: _ => isAsciiLetter c1 && c2 = ':' && (c3 = '\\' || c3 = '/')
  | _ => false

def isLocalPath (source : String) : Bool :=
  if jsStarts source "file://" then true
  else if winDrivePath source then true
  else if jsStarts source "/" && !jsStarts source "//" then true
  else false

/-! ### Content validator -/

structure ValidationResult where
  valid : Bool
  reason : Option String
deriving DecidableEq, Repr

/-- The `htmlErrorIndicators` list from `isValidInstructionContent`, verbatim
(note that it contains the HTML markers themselves, not only error texts). -/
def htmlErrorIndicators : List String :=
  ["<!doctype html", "<html", "<head>", "<title>404", "<title>401", "<title>403",
   "<title>500", "page not found", "access denied", "unauthorized", "sign in to",
   "login required"]

/-- `json.message || json.error || 'Unknown error'`. -/
def jsOrSelect (m e : Option Json) : Json :=
  if truthy m then m.getD Json.null
  else if truthy e then e.getD Json.null
  else Json.str "Unknown error"

/-- `isValidInstructionContent(content, source)`.  The source `for` loop over
the indicator list returns the same constant reason for every indicator, so it
is modelled by `List.any`; the source's `lowerContent`/`trimmedLower` locals
are inlined.  The second argument is unused by the source too. -/
def isValidInstructionContent (content : String) (_src : String) : ValidationResult :=
  if jsTrim content = "" then
    { valid := false, reason := some "Empty content received" }
  else
    if jsStarts (jsTrim (jsLower content)) "<!doctype"
        || jsStarts (jsTrim (jsLower content)) "<html" then
      if htmlErrorIndicators.any (fun ind => jsIncludes (jsLower content) ind) then
        { valid := false, reason := some "Received HTML error page instead of instructions content" }
      else
        { valid := false, reason := some "Received HTML content instead of Markdown instructions" }
    else if jsStarts (jsTrim (jsLower content)) "\x7b" then
      match parseJson content with
      | some json =>
        if truthy (getField json "message") || truthy (getField json "error")
            || truthy (getField json "errors") then
          { valid := false, reason := some ("API error: " ++
              jsToString (jsOrSelect (getField json "message") (getField json "error"))) }
        else { valid := true, reason := none }
      | none => { valid := true, reason := none }
    else { valid := true, reason := none }

/-! ### Content fetcher

The file system and the network are external collaborators, modelled as
oracles from a path/URL to `some` content or `none` for a read/HTTP failure.
Authentication and request headers influence only what the network returns,
which the oracle already abstracts. -/

def fetchContent (fsRead : String → Option String) (netGet : String → Option String)
    (source : String) : Except String String :=
  if isLocalPath source then
    match fsRead source with
    | some content => Except.ok content
    | none => Except.error ("Failed to read local file " ++ source)
  else
    match netGet source with
    | none => Except.error ("Failed to fetch from " ++ source)
    | some content =>
      let validation := isValidInstructionContent content source
      if validation.valid then Except.ok content
      else Except.error ("Invalid content from " ++ source ++ ": " ++
        (validation.reason.getD "undefined"))

/-! ### Sync session and `syncInstructions` -/

inductive UserChoice where
  | yes
  | yesToAll
  | no
  | always
  | dismissed
deriving DecidableEq, Repr

structure SyncSession where
  confirmAll : Bool
deriving DecidableEq, Repr

/-- One `syncInstructions` call, with the editor collaborators abstracted:
`fetched` is the `fetchContent` outcome, `localContent` the current
destination file (`none` = missing), `confirmBeforeSync` the configuration
value, `choice` the user's answer to the warning prompt (consulted only when
the prompt is actually shown; `dismissed` models `undefined`). -/
structure SyncCallResult where
  returned : Bool
  written : Option String
  promptShown : Bool
  errorShown : Bool
  session : Option SyncSession
  confirmBeforeSync : Bool
deriving DecidableEq, Repr

/-- `session?.confirmAll` under JS truthiness. -/
def sessionConfirmAll : Option SyncSession → Bool
  | some s => s.confirmAll
  | none => false

def syncInstructions (fetched : Except String String) (localContent : Option String)
    (requireConfirmation : Bool) (confirmBeforeSync : Bool)
    (session : Option SyncSession) (choice : UserChoice) : SyncCallResult :=
  match fetched with
  | Except.error _ =>
    { returned := false, written := none, promptShown := false, errorShown := true,
      session := session, confirmBeforeSync := confirmBeforeSync }
  | Except.ok remoteContent =>
    if localContent ≠ some remoteContent then
      if requireConfirmation && !sessionConfirmAll session then
        if confirmBeforeSync then
          match choice with
          | UserChoice.no =>
            { returned := false, written := none, promptShown := true, errorShown := false,
              session := session, confirmBeforeSync := confirmBeforeSync }
          | UserChoice.dismissed =>
            { returned := false, written := none, promptShown := true, errorShown := false,
              session := session, confirmBeforeSync := confirmBeforeSync }
          | UserChoice.yesToAll =>
            { returned := true, written := some remoteContent, promptShown := true,
              errorShown := false,
              session := (match session with
                | some s => some { s with confirmAll := true }
                | none => none),
              confirmBeforeSync := confirmBeforeSync }
          | UserChoice.always =>
            { returned := true, written := some remoteContent, promptShown := true,
              errorShown := false, session := session, confirmBeforeSync := false }
          | UserChoice.yes =>
            { returned := true, written := some remoteContent, promptShown := true,
              errorShown := false, session := session, confirmBeforeSync := confirmBeforeSync }
        else
          { returned := true, written := some remoteContent, promptShown := false,
            errorShown := false, session := session, confirmBeforeSync := confirmBeforeSync }
      else
        { returned := true, written := some remoteContent, promptShown := false,
          errorShown := false, session := session, confirmBeforeSync := confirmBeforeSync }
    else
      { returned := false, written := none, promptShown := false, errorShown := false,
        session := session, confirmBeforeSync := confirmBeforeSync }

end InstructionSync

namespace InstructionSync

/-! ### Remote config parsing (`fetchRemoteConfig` validation step) -/

def isStrField : Option Json → Bool
  | some (Json.str _) => true
  | _ => false

/-- The per-entry filter from `fetchRemoteConfig`:
`typeof s === 'object' && s !== null && typeof s.language === 'string' &&
typeof s.url === 'string'` (JS `typeof` calls arrays objects too). -/
def sourceEntryOk (j : Json) : Bool :=
  match j with
  | Json.obj _ => isStrField (getField j "language") && isStrField (getField j "url")
  | Json.arr _ => isStrField (getField j "language") && isStrField (getField j "url")
  | _ => false

/-- The `sources` validation step of `fetchRemoteConfig`: on a parsed remote
configuration document, keep `parsed.sources` only if it is an array, and
filter its entries by `sourceEntryOk`; `none` models `remoteConf.sources`
staying `undefined`. -/
def remoteConfigSources (parsed : Json) : Option (List Json) :=
  match getField parsed "sources" with
  | some (Json.arr xs) => some (xs.filter sourceEntryOk)
  | _ => none

/-! ### Source merge engine (`getInstructionSources`) -/

/-- `lowercase(language) + "::" + fullPath` — the merge identity key. -/
def sourceKey (s : InstructionSource) : String :=
  jsLower s.language ++ "::" ++ (getDestinationPath (some s)).fullPath

/-- JS `Map.prototype.set`: replace in place if the key is present (keeping
its original position), else append. -/
def mapSet {α : Type} (m : List (String × α)) (k : String) (v : α) :
    List (String × α) :=
  match m with
  | [] => [(k, v)]
  | (k', v') :: rest => if k' = k then (k, v) :: rest else (k', v') :: mapSet rest k v

/-- Insert a list of sources into the keyed map, in list order. -/
def insertSources (m : List (String × InstructionSource))
    (l : List InstructionSource) : List (String × InstructionSource) :=
  l.foldl (fun acc s => mapSet acc (sourceKey s) s) m

/-- The general keyed-map merge algorithm of `getInstructionSources`: insert
all remote sources, then all local sources, and return the map's values in
insertion order. -/
def mergeSources (remote localSources : List InstructionSource) :
    List InstructionSource :=
  (insertSources (insertSources [] remote) localSources).map Prod.snd

/-- `getInstructionSources`: `remoteSources` is `none` when there is no
remote configuration or it carries no `sources` array.  The two emptiness
short-circuits return an input list as-is; only when both layers are
non-empty does the keyed-map merge run. -/
def getInstructionSources (remoteSources : Option (List InstructionSource))
    (localSources : List InstructionSource) : List InstructionSource :=
  match remoteSources with
  | none => localSources
  | some rs =>
    if rs = [] then localSources
    else if localSources = [] then rs
    else mergeSources rs localSources

/-! ### Workspace language detection and the orchestrator loop -/

/-- The `languagePatterns` table of `detectWorkspaceLanguage`. -/
def languagePatterns : List (String × List String) :=
  [("AL", ["**/*.al", "app.json"]),
   ("C#", ["**/*.cs", "**/*.csproj"]),
   ("TypeScript", ["**/*.ts", "**/*.tsx"]),
   ("JavaScript", ["**/*.js", "**/*.jsx"]),
   ("Python", ["**/*.py"]),
   ("Java", ["**/*.java"]),
   ("Go", ["**/*.go"]),
   ("Rust", ["**/*.rs"]),
   ("C++", ["**/*.cpp", "**/*.hpp", "**/*.cc"]),
   ("C", ["**/*.c", "**/*.h"]),
   ("Ruby", ["**/*.rb"]),
   ("PHP", ["**/*.php"]),
   ("Swift", ["**/*.swift"]),
   ("Kotlin", ["**/*.kt"]),
   ("Powershell", ["**/*.ps1"])]

/-- A workspace folder: its name plus the editor's glob search, abstracted as
an oracle telling whether a pattern matches at least one file. -/
structure WorkspaceRoot where
  name : String
  hasFiles : String → Bool

/-- `detectWorkspaceLanguage`: a language is detected when any of its
patterns matches (the source `break`s after the first hit, which is the same
set). -/
def detectWorkspaceLanguage (root : WorkspaceRoot) : List String :=
  languagePatterns.filterMap
    (fun lp => if lp.2.any root.hasFiles then some lp.1 else none)

/-- The `performSync` iteration (latest variant): which `(workspace folder,
source)` pairs get a `syncInstructions` call, in order.  There is no `break`
after a match: every enabled, language-matching source is synced.  The
`if (matchingLanguage)` test is JS-truthy, so a found-but-empty language
string would not count as a match. -/
def performSyncPlan (roots : List WorkspaceRoot)
    (sources : List InstructionSource) : List (WorkspaceRoot × InstructionSource) :=
  if sources = [] then []
  else
    roots.flatMap (fun root =>
      let detectedLanguages := detectWorkspaceLanguage root
      if detectedLanguages = [] then []
      else
        sources.filterMap (fun source =>
          if source.enabled = some false then none
          else
            match detectedLanguages.find?
                (fun lang => jsLower lang = jsLower source.language) with
            | some m => if m = "" then none else some (root, source)
            | none => none))

end InstructionSync

namespace InstructionSync

/-! ### Lemmas about the keyed map underlying the merge engine -/

/-- `Map.prototype.get`, for specification purposes. -/
def lookupVal {α : Type} : List (String × α) → String → Option α
  | [], _ => none
  | (k', v) :: rest, k => if k' = k then some v else lookupVal rest k

/-- The most recent element of `l` carrying identity key `k` (the one a
keyed-map insertion of `l` leaves at `k`). -/
def lastWithKey : List InstructionSource → String → Option InstructionSource
  | [], _ => none
  | s :: rest, k =>
    match lastWithKey rest k with
    | some t => some t
    | none => if sourceKey s = k then some s else none

theorem lookupVal_mapSet {α : Type} (m : List (String × α)) (k k' : String) (v : α) :
    lookupVal (mapSet m k v) k' = if k = k' then some v else lookupVal m k' := by
  induction m with
  | nil => simp [mapSet, lookupVal]
  | cons p rest ih =>
    obtain ⟨k₀, v₀⟩ := p
    by_cases h0 : k₀ = k
    · subst h0
      by_cases h : k₀ = k'
      · simp [mapSet, lookupVal, h]
      · simp [mapSet, lookupVal, h]
    · simp only [mapSet, if_neg h0]
      by_cases h : k₀ = k'
      · subst h
        have : ¬ k = k₀ := fun he => h0 he.symm
        simp [lookupVal, this]
      · simp [lookupVal, h, ih]

theorem lookupVal_eq_none_iff {α : Type} (m : List (String × α)) (k : String) :
    lookupVal m k = none ↔ k ∉ m.map Prod.fst := by
  induction m with
  | nil => simp [lookupVal]
  | cons p rest ih =>
    obtain ⟨k₀, v₀⟩ := p
    by_cases h : k₀ = k
    · subst h
      simp [lookupVal]
    · simp only [lookupVal, if_neg h, List.map_cons, List.mem_cons, not_or, ih]
      constructor
      · intro hr
        exact ⟨fun he => h he.symm, hr⟩
      · intro ⟨_, hr⟩
        exact hr

theorem mapSet_keys {α : Type} (m : List (String × α)) (k : String) (v : α) :
    (mapSet m k v).map Prod.fst =
      if k ∈ m.map Prod.fst then m.map Prod.fst else m.map Prod.fst ++ [k] := by
  induction m with
  | nil => simp [mapSet]
  | cons p rest ih =>
    obtain ⟨k₀, v₀⟩ := p
    by_cases h : k₀ = k
    · subst h
      simp [mapSet]
    · simp only [mapSet, if_neg h, List.map_cons, ih]
      by_cases hm : k ∈ rest.map Prod.fst
      · rw [if_pos hm, if_pos (by simp [hm])]
      · rw [if_neg hm, if_neg (by
          simp only [List.mem_cons, not_or]
          exact ⟨fun he => h he.symm, hm⟩), List.cons_append]

theorem nodup_keys_mapSet {α : Type} (m : List (String × α)) (k : String) (v : α)
    (h : (m.map Prod.fst).Nodup) : ((mapSet m k v).map Prod.fst).Nodup := by
  rw [mapSet_keys]
  by_cases hm : k ∈ m.map Prod.fst
  · rwa [if_pos hm]
  · rw [if_neg hm]
    refine List.nodup_append.mpr ⟨h, List.nodup_singleton _, ?_⟩
    intro a ha hb
    simp only [List.mem_singleton] at hb
    subst hb
    exact hm ha

theorem nodup_keys_insertSources (m : List (String × InstructionSource))
    (l : List InstructionSource) (h : (m.map Prod.fst).Nodup) :
    ((insertSources m l).map Prod.fst).Nodup := by
  induction l generalizing m with
  | nil => exact h
  | cons s l ih => exact ih _ (nodup_keys_mapSet _ _ _ h)

/-- Every pair in the maps we build carries its value's identity key. -/
def entriesWf (m : List (String × InstructionSource)) : Prop :=
  ∀ p ∈ m, p.1 = sourceKey p.2

theorem entriesWf_mapSet {m : List (String × InstructionSource)}
    (h : entriesWf m) (s : InstructionSource) :
    entriesWf (mapSet m (sourceKey s) s) := by
  induction m with
  | nil =>
    intro p hp
    simp only [mapSet, List.mem_singleton] at hp
    subst hp; rfl
  | cons q rest ih =>
    obtain ⟨k₀, v₀⟩ := q
    intro p hp
    simp only [mapSet] at hp
    by_cases h0 : k₀ = sourceKey s
    · rw [if_pos h0] at hp
      rcases List.mem_cons.mp hp with h1 | h1
      · subst h1; rfl
      · exact h p (List.mem_cons_of_mem _ h1)
    · rw [if_neg h0] at hp
      rcases List.mem_cons.mp hp with h1 | h1
      · subst h1; exact h _ (List.mem_cons_self _ _)
      · exact ih (fun q hq => h q (List.mem_cons_of_mem _ hq)) p h1

theorem entriesWf_insertSources (m : List (String × InstructionSource))
    (l : List InstructionSource) (h : entriesWf m) :
    entriesWf (insertSources m l) := by
  induction l generalizing m with
  | nil => exact h
  | cons s l ih => exact ih _ (entriesWf_mapSet h s)

theorem keys_eq_map_sourceKey {m : List (String × InstructionSource)}
    (h : entriesWf m) : m.map Prod.fst = (m.map Prod.snd).map sourceKey := by
  induction m with
  | nil => rfl
  | cons p rest ih =>
    simp only [List.map_cons]
    rw [h p (List.mem_cons_self _ _)]
    rw [ih (fun q hq => h q (List.mem_cons_of_mem _ hq))]

theorem mapSet_eq_append {α : Type} {m : List (String × α)} {k : String} (v : α)
    (h : k ∉ m.map Prod.fst) : mapSet m k v = m ++ [(k, v)] := by
  induction m with
  | nil => rfl
  | cons p rest ih =>
    obtain ⟨k₀, v₀⟩ := p
    simp only [List.map_cons, List.mem_cons, not_or] at h
    have hne : k₀ ≠ k := fun he => h.1 he.symm
    simp only [mapSet, if_neg hne, List.cons_append]
    rw [ih h.2]

theorem insertSources_nil (m : List (String × InstructionSource)) :
    insertSources m [] = m := rfl

theorem insertSources_eq_append (m : List (String × InstructionSource))
    (l : List InstructionSource)
    (hdis : ∀ s ∈ l, sourceKey s ∉ m.map Prod.fst)
    (hnd : (l.map sourceKey).Nodup) :
    insertSources m l = m ++ l.map (fun s => (sourceKey s, s)) := by
  induction l generalizing m with
  | nil => simp [insertSources]
  | cons s l ih =>
    have hstep : mapSet m (sourceKey s) s = m ++ [(sourceKey s, s)] :=
      mapSet_eq_append s (hdis s (List.mem_cons_self _ _))
    have hl : insertSources m (s :: l) = insertSources (mapSet m (sourceKey s) s) l := rfl
    rw [List.map_cons] at hnd
    have hnd' := List.nodup_cons.mp hnd
    rw [hl, hstep, ih]
    · simp
    · intro t ht
      simp only [List.map_append, List.map_cons, List.map_nil, List.mem_append,
        List.mem_singleton, not_or]
      refine ⟨hdis t (List.mem_cons_of_mem _ ht), ?_⟩
      intro he
      exact hnd'.1 (he ▸ List.mem_map_of_mem sourceKey ht)
    · exact hnd'.2

theorem lookupVal_insertSources (m : List (String × InstructionSource))
    (l : List InstructionSource) (k : String) :
    lookupVal (insertSources m l) k =
      match lastWithKey l k with
      | some s => some s
      | none => lookupVal m k := by
  induction l generalizing m with
  | nil => simp [insertSources, lastWithKey]
  | cons s l ih =>
    have hl : insertSources m (s :: l) = insertSources (mapSet m (sourceKey s) s) l := rfl
    rw [hl, ih]
    show _ = (match (match lastWithKey l k with
      | some t => some t
      | none => if sourceKey s = k then some s else none) with
      | some t => some t
      | none => lookupVal m k)
    cases hlast : lastWithKey l k with
    | some t => simp
    | none =>
      simp only
      rw [lookupVal_mapSet]
      by_cases hk : sourceKey s = k
      · rw [if_pos hk, if_pos hk]
      · rw [if_neg hk, if_neg hk]

theorem lookupVal_eq_some_of_mem {α : Type} {m : List (String × α)} {k : String} {v : α}
    (hnd : (m.map Prod.fst).Nodup) (hmem : (k, v) ∈ m) : lookupVal m k = some v := by
  induction m with
  | nil => simp at hmem
  | cons p rest ih =>
    obtain ⟨k₀, v₀⟩ := p
    rw [List.map_cons] at hnd
    have hnd' := List.nodup_cons.mp hnd
    rcases List.mem_cons.mp hmem with h | h
    · injection h with h1 h2
      subst h1; subst h2
      simp [lookupVal]
    · have hk : k₀ ≠ k := by
        intro he
        apply hnd'.1
        rw [he]
        exact List.mem_map.mpr ⟨(k, v), h, rfl⟩
      simp only [lookupVal, if_neg hk]
      exact ih hnd'.2 h

theorem lastWithKey_isSome {l : List InstructionSource} {k : String}
    (h : k ∈ l.map sourceKey) : ∃ t, lastWithKey l k = some t := by
  induction l with
  | nil => simp at h
  | cons s l ih =>
    simp only [List.map_cons, List.mem_cons] at h
    show ∃ t, (match lastWithKey l k with
      | some t => some t
      | none => if sourceKey s = k then some s else none) = some t
    cases hlast : lastWithKey l k with
    | some t => exact ⟨t, rfl⟩
    | none =>
      rcases h with h | h
      · exact ⟨s, by simp [h.symm]⟩
      · obtain ⟨t, ht⟩ := ih h
        rw [ht] at hlast
        exact absurd hlast (by simp)

end InstructionSync

namespace InstructionSync

/-! ### Shared concrete examples -/

/-- Two sources sharing the merge identity key (same language, default
destination) but different URLs. -/
def dupA : InstructionSource :=
  { language := "C#", url := "https://example.com/old.md" }

def dupB : InstructionSource :=
  { language := "C#", url := "https://example.com/new.md" }

/-- A remote-config source entry whose `language`/`url` are strings but whose
`enabled` is a string, not a boolean. -/
def badEntry : Json :=
  Json.obj [("language", Json.str "C#"),
    ("url", Json.str "https://example.com/a.md"),
    ("enabled", Json.str "yes")]

/-! ### Claim theorems -/

/-- C10: `getDestinationPath` applies the `.github` / `copilot-instructions.md`
defaults only when `destinationFolder`/`destinationFile` are absent, not when
they are the empty string: `destinationFolder = ""` gives folder `""` and
`fullPath = "/copilot-instructions.md"`, and `destinationFile = ""` gives
`fullPath = ".github/"`, whose last character is the slash. -/
theorem c10_empty_destination_not_defaulted (lang url : String) (en : Option Bool) :
    getDestinationPath (some ({ language := lang, url := url, enabled := en,
                                destinationFolder := some "",
                                destinationFile := none } : InstructionSource)) =
      { folder := "", file := "copilot-instructions.md",
        fullPath := "/copilot-instructions.md" } ∧
    getDestinationPath (some ({ language := lang, url := url, enabled := en,
                                destinationFolder := none,
                                destinationFile := some "" } : InstructionSource)) =
      { folder := ".github", file := "", fullPath := ".github/" } ∧
    ((getDestinationPath (some ({ language := lang, url := url, enabled := en,
                                  destinationFolder := none,
                                  destinationFile := some "" } :
        InstructionSource))).fullPath).data.getLast? = some '/' :=
  ⟨rfl, rfl, rfl⟩

/-- C9: `fetchContent` never validates content read from a local path — the
file's decoded content comes back as-is (first conjunct, for any content,
valid or not), while on the remote branch content failing
`isValidInstructionContent` becomes an error (second conjunct). -/
theorem c9_local_fetch_skips_validation :
    (∀ (fsRead netGet : String → Option String) (source content : String),
      isLocalPath source = true → fsRead source = some content →
      fetchContent fsRead netGet source = Except.ok content) ∧
    (∀ (fsRead netGet : String → Option String) (url c : String),
      isLocalPath url = false → netGet url = some c →
      (isValidInstructionContent c url).valid = false →
      fetchContent fsRead netGet url =
        Except.error ("Invalid content from " ++ url ++ ": " ++
          ((isValidInstructionContent c url).reason.getD "undefined"))) := by
  constructor
  · intro fsRead netGet source content hlocal hfs
    simp [fetchContent, hlocal, hfs]
  · intro fsRead netGet url c hrem hnet hbad
    simp [fetchContent, hrem, hnet, hbad]

/-- Witness for C9: an empty local file — which the validator would reject as
"Empty content received" — is fetched successfully from a local path. -/
theorem c9_witness :
    isLocalPath "/shared/team.md" = true ∧
    (isValidInstructionContent "" "/shared/team.md").valid = false ∧
    fetchContent (fun p => if p = "/shared/team.md" then some "" else none)
      (fun _ => none) "/shared/team.md" = Except.ok "" := by
  refine ⟨by decide, by decide, ?_⟩
  exact (c9_local_fetch_skips_validation).1 _ _ _ _ (by decide) (by simp)

/-- C7: when the confirmation prompt is shown and answered `No` or dismissed,
`syncInstructions` returns `false`, writes nothing, shows no error, and
leaves the session and the `confirmBeforeSync` setting unchanged. -/
theorem c7_decline_is_skip (c : String) (l : Option String)
    (session : Option SyncSession) (choice : UserChoice)
    (hdiff : l ≠ some c) (hcs : sessionConfirmAll session = false)
    (hch : choice = UserChoice.no ∨ choice = UserChoice.dismissed) :
    syncInstructions (Except.ok c) l true true session choice =
      { returned := false, written := none, promptShown := true, errorShown := false,
        session := session, confirmBeforeSync := true } := by
  rcases hch with h | h <;> subst h <;> simp [syncInstructions, hdiff, hcs]

/-- Witness for C7: dismissing the prompt for a changed file skips the write. -/
theorem c7_witness :
    syncInstructions (Except.ok "new") (some "old") true true (some ⟨false⟩)
        UserChoice.dismissed =
      { returned := false, written := none, promptShown := true, errorShown := false,
        session := some ⟨false⟩, confirmBeforeSync := true } :=
  c7_decline_is_skip "new" (some "old") (some ⟨false⟩) UserChoice.dismissed
    (by simp) rfl (Or.inr rfl)

end InstructionSync

namespace InstructionSync

/-- Counterexample for C5: `"<html><body>Hi</body></html>"` contains none of
the claim's error-indicator substrings, yet the validator reports the
"HTML error page" reason, not "HTML content instead of Markdown" — because
the code's indicator list also contains `"<html"` itself. -/
theorem c5_counterexample :
    (isValidInstructionContent "<html><body>Hi</body></html>" "https://example.com").reason =
        some "Received HTML error page instead of instructions content" ∧
    (isValidInstructionContent "<html><body>Hi</body></html>" "https://example.com").reason ≠
        some "Received HTML content instead of Markdown instructions" := by
  have h : (isValidInstructionContent "<html><body>Hi</body></html>"
      "https://example.com").reason =
      some "Received HTML error page instead of instructions content" := by decide
  exact ⟨h, by rw [h]; decide⟩

/-- C5 (amended): content whose trimmed, lowercased form starts with an HTML
doctype or opening html tag is always invalid; the reason is "HTML error page"
exactly when the lowercased content contains one of the code's
`htmlErrorIndicators` — a list that includes `"<!doctype html"`, `"<html"` and
`"<head>"` besides the error markers — and "HTML content instead of Markdown"
otherwise.  In particular any content starting with `<html` always gets the
"HTML error page" reason. -/
theorem c5_html_validation (content u : String)
    (h : (jsStarts (jsTrim (jsLower content)) "<!doctype"
        || jsStarts (jsTrim (jsLower content)) "<html") = true) :
    (isValidInstructionContent content u).valid = false ∧
    ((isValidInstructionContent content u).reason =
        some "Received HTML error page instead of instructions content" ↔
      htmlErrorIndicators.any (fun ind => jsIncludes (jsLower content) ind) = true) ∧
    (htmlErrorIndicators.any (fun ind => jsIncludes (jsLower content) ind) = false →
      (isValidInstructionContent content u).reason =
        some "Received HTML content instead of Markdown instructions") ∧
    (jsStarts (jsTrim (jsLower content)) "<html" = true →
      (isValidInstructionContent content u).reason =
        some "Received HTML error page instead of instructions content") := by
  have hne : ¬ (jsTrim content = "") := by
    intro h0
    rw [jsTrim_jsLower, h0] at h
    exact absurd h (by decide)
  have hbody : isValidInstructionContent content u =
      if htmlErrorIndicators.any (fun ind => jsIncludes (jsLower content) ind) then
        { valid := false,
          reason := some "Received HTML error page instead of instructions content" }
      else
        { valid := false,
          reason := some "Received HTML content instead of Markdown instructions" } := by
    unfold isValidInstructionContent
    rw [if_neg hne, if_pos h]
  cases hany : htmlErrorIndicators.any (fun ind => jsIncludes (jsLower content) ind) with
  | true =>
    rw [hbody, if_pos hany]
    refine ⟨rfl, by simp, by simp, fun _ => rfl⟩
  | false =>
    rw [hbody, if_neg (by simp [hany])]
    refine ⟨rfl, by simp, fun _ => rfl, ?_⟩
    intro hs
    have hinc : jsIncludes (jsLower content) "<html" = true := by
      apply jsIncludes_of_trim
      exact listHasSub_of_isPref hs
    have : htmlErrorIndicators.any (fun ind => jsIncludes (jsLower content) ind) = true :=
      List.any_eq_true.mpr ⟨"<html", by decide, hinc⟩
    rw [hany] at this
    cases this

/-- Witness for C5 (amended): the spec's own doctype-with-404-title example
gets the "HTML error page" reason, and a doctype page with no indicator at
all gets the "HTML content" reason. -/
theorem c5_witness :
    (isValidInstructionContent "<!DOCTYPE html><title>404 Not Found</title>" "u").valid
        = false ∧
    (isValidInstructionContent "<html><body>Hi</body></html>" "u").valid = false := by
  constructor
  · exact (c5_html_validation "<!DOCTYPE html><title>404 Not Found</title>" "u" (by decide)).1
  · exact (c5_html_validation "<html><body>Hi</body></html>" "u" (by decide)).1

end InstructionSync

namespace InstructionSync

/-- Counterexample for C6: `'\x7b"message": ""\x7d'` parses as JSON and
contains a `message` field, yet the validator accepts it as valid — the code
tests JS truthiness of the field, and the empty string is falsy. -/
theorem c6_counterexample :
    jsStarts (jsTrim (jsLower "\x7b\"message\": \"\"\x7d")) "\x7b" = true ∧
    parseJson "\x7b\"message\": \"\"\x7d" = some (Json.obj [("message", Json.str "")]) ∧
    isValidInstructionContent "\x7b\"message\": \"\"\x7d" "https://example.com" =
      { valid := true, reason := none } := by
  exact ⟨by decide, by rfl, by decide⟩

/-- C6 (amended): for content whose trimmed form starts with a brace, the
validator accepts it when parsing fails or when none of the `message`,
`error`, `errors` fields is truthy (absent, or present with a falsy value
such as the empty string), and rejects it with reason
`"API error: " ++ (message if truthy, else error if truthy, else "Unknown
error")` when any of the three is truthy. -/
theorem c6_json_validation (content u : String)
    (h : jsStarts (jsTrim (jsLower content)) "\x7b" = true) :
    (parseJson content = none →
      isValidInstructionContent content u = { valid := true, reason := none }) ∧
    ∀ j, parseJson content = some j →
      ((truthy (getField j "message") || truthy (getField j "error") ||
          truthy (getField j "errors")) = false →
        isValidInstructionContent content u = { valid := true, reason := none }) ∧
      ((truthy (getField j "message") || truthy (getField j "error") ||
          truthy (getField j "errors")) = true →
        isValidInstructionContent content u =
          { valid := false, reason := some ("API error: " ++
              jsToString (jsOrSelect (getField j "message") (getField j "error"))) }) := by
  have hne : ¬ (jsTrim content = "") := by
    intro h0
    rw [jsTrim_jsLower, h0] at h
    exact absurd h (by decide)
  obtain ⟨l', hl'⟩ := ne_nil_of_listIsPref (p := []) (by exact h)
  have hd1 : jsStarts (jsTrim (jsLower content)) "<!doctype" = false := by
    unfold jsStarts
    rw [hl']
    exact listIsPref_cons_ne _ _ (by decide)
  have hd2 : jsStarts (jsTrim (jsLower content)) "<html" = false := by
    unfold jsStarts
    rw [hl']
    exact listIsPref_cons_ne _ _ (by decide)
  have hbody : isValidInstructionContent content u =
      match parseJson content with
      | some json =>
        if truthy (getField json "message") || truthy (getField json "error")
            || truthy (getField json "errors") then
          { valid := false, reason := some ("API error: " ++
              jsToString (jsOrSelect (getField json "message") (getField json "error"))) }
        else { valid := true, reason := none }
      | none => { valid := true, reason := none } := by
    unfold isValidInstructionContent
    rw [if_neg hne, if_neg (by simp [hd1, hd2]), if_pos h]
  constructor
  · intro hp
    rw [hbody, hp]
  · intro j hp
    rw [hbody, hp]
    constructor
    · intro hfalse
      simp [hfalse]
    · intro htrue
      simp [htrue]

/-- Witness for C6 (amended): the GitHub-style error payload from the spec is
rejected with reason "API error: Not Found", and a harmless JSON object is
accepted. -/
theorem c6_witness :
    isValidInstructionContent "\x7b\"message\": \"Not Found\"\x7d" "u" =
      { valid := false, reason := some "API error: Not Found" } ∧
    isValidInstructionContent "\x7b\"key\": \"value\"\x7d" "u" =
      { valid := true, reason := none } := by
  constructor
  · exact ((c6_json_validation "\x7b\"message\": \"Not Found\"\x7d" "u" (by decide)).2
      (Json.obj [("message", Json.str "Not Found")]) (by rfl)).2 (by decide)
  · exact ((c6_json_validation "\x7b\"key\": \"value\"\x7d" "u" (by decide)).2
      (Json.obj [("key", Json.str "value")]) (by rfl)).1 (by decide)

end InstructionSync

namespace InstructionSync

/-- The claim's well-typedness predicate for a remote source entry, written
from the spec's words: well-typed in `language`, `url`, `enabled`,
`destinationFolder` and `destinationFile` (the last three may be absent). -/
def isOptBoolField : Option Json → Bool
  | none => true
  | some (Json.bool _) => true
  | _ => false

def isOptStrField : Option Json → Bool
  | none => true
  | some (Json.str _) => true
  | _ => false

def claimWellTypedEntry (j : Json) : Bool :=
  isStrField (getField j "language") && isStrField (getField j "url") &&
    isOptBoolField (getField j "enabled") &&
    isOptStrField (getField j "destinationFolder") &&
    isOptStrField (getField j "destinationFile")

/-- Counterexample for C8: an entry whose `enabled` is the string `"yes"`
survives `fetchRemoteConfig`'s filter — only `language` and `url` are
type-checked — so not every field of a surviving entry is well-typed. -/
theorem c8_counterexample :
    remoteConfigSources (Json.obj [("sources", Json.arr [badEntry])]) = some [badEntry] ∧
    claimWellTypedEntry badEntry = false := by
  exact ⟨rfl, by decide⟩

/-- C8 (amended): `fetchRemoteConfig` drops entries that are not objects or
whose `language` or `url` is not a string, without failing the whole load;
entries surviving the filter are guaranteed well-typed only in `language` and
`url` (their `enabled`/`destinationFolder`/`destinationFile` are not
checked). -/
theorem c8_remote_config_filter (parsed : Json) (xs : List Json)
    (hsrc : getField parsed "sources" = some (Json.arr xs)) :
    remoteConfigSources parsed = some (xs.filter sourceEntryOk) ∧
    ∀ j ∈ xs.filter sourceEntryOk,
      isStrField (getField j "language") = true ∧ isStrField (getField j "url") = true := by
  constructor
  · unfold remoteConfigSources
    rw [hsrc]
  · intro j hj
    have hok : sourceEntryOk j = true := (List.mem_filter.mp hj).2
    cases j with
    | obj fields =>
      simpa [sourceEntryOk, Bool.and_eq_true] using hok
    | arr xs' =>
      simpa [sourceEntryOk, Bool.and_eq_true] using hok
    | null => simp [sourceEntryOk] at hok
    | bool b => simp [sourceEntryOk] at hok
    | num z r => simp [sourceEntryOk] at hok
    | str s => simp [sourceEntryOk] at hok

/-- Witness for C8 (amended): a document with one good entry, one string
entry and the ill-typed `badEntry`; the string entry is dropped, the other
two survive with string `language`/`url`. -/
theorem c8_witness :
    remoteConfigSources (Json.obj [("sources", Json.arr
        [Json.obj [("language", Json.str "AL"), ("url", Json.str "https://example.com/al.md")],
         Json.str "oops", badEntry])]) =
      some [Json.obj [("language", Json.str "AL"),
              ("url", Json.str "https://example.com/al.md")], badEntry] ∧
    isStrField (getField badEntry "language") = true ∧
    isStrField (getField badEntry "url") = true := by
  have h := c8_remote_config_filter (Json.obj [("sources", Json.arr
      [Json.obj [("language", Json.str "AL"), ("url", Json.str "https://example.com/al.md")],
       Json.str "oops", badEntry])])
    [Json.obj [("language", Json.str "AL"), ("url", Json.str "https://example.com/al.md")],
     Json.str "oops", badEntry] (by rfl)
  exact ⟨h.1, h.2 badEntry (by unfold badEntry; exact List.mem_cons_of_mem _ (List.mem_cons_self _ _))⟩

end InstructionSync

namespace InstructionSync

theorem map_snd_pairing {α β : Type} (f : α → β) (L : List α) :
    List.map (Prod.snd ∘ fun s => (f s, s)) L = L := by
  induction L with
  | nil => rfl
  | cons a l ih =>
    simp only [List.map_cons, Function.comp_apply]
    rw [ih]

/-- Counterexample for C2: with the remote layer empty and a local list that
contains two entries sharing an identity key, the short-circuit returns the
duplicates unchanged while the general keyed-map algorithm deduplicates —
the short-circuit is not behaviourally identical to the general algorithm. -/
theorem c2_counterexample :
    getInstructionSources (some []) [dupA, dupB] = [dupA, dupB] ∧
    mergeSources [] [dupA, dupB] = [dupB] ∧
    getInstructionSources (some []) [dupA, dupB] ≠ mergeSources [] [dupA, dupB] := by
  refine ⟨rfl, by decide, by decide⟩

/-- C2 (amended): `getInstructionSources` returns `localSources` unchanged
when the remote layer is absent or empty and `remoteSources` unchanged when
the local list is empty; these short-circuits agree with the general
keyed-map merge algorithm whenever the returned input list has pairwise
distinct identity keys — but not when a single input list contains duplicate
keys. -/
theorem c2_merge_shortcircuits (R L : List InstructionSource) :
    getInstructionSources none L = L ∧
    getInstructionSources (some []) L = L ∧
    getInstructionSources (some R) [] = R ∧
    ((L.map sourceKey).Nodup → mergeSources [] L = L) ∧
    ((R.map sourceKey).Nodup → mergeSources R [] = R) := by
  refine ⟨rfl, rfl, ?_, ?_, ?_⟩
  · cases R with
    | nil => rfl
    | cons r rs =>
      show (if r :: rs = [] then ([] : List InstructionSource)
        else if ([] : List InstructionSource) = [] then r :: rs
        else mergeSources (r :: rs) []) = r :: rs
      rw [if_neg (by simp), if_pos rfl]
  · intro hnd
    show (insertSources (insertSources [] []) L).map Prod.snd = L
    rw [insertSources_nil, insertSources_eq_append [] L (by intro s _; simp) hnd]
    rw [List.nil_append, List.map_map]
    exact map_snd_pairing sourceKey L
  · intro hnd
    show (insertSources (insertSources [] R) []).map Prod.snd = R
    rw [insertSources_nil, insertSources_eq_append [] R (by intro s _; simp) hnd]
    rw [List.nil_append, List.map_map]
    exact map_snd_pairing sourceKey R

/-- Witness for C2 (amended): a duplicate-free two-language local list is
returned identically by the short-circuit and the general algorithm. -/
theorem c2_witness :
    (([dupB, { language := "AL", url := "https://example.com/al.md" }].map
        sourceKey).Nodup) ∧
    mergeSources [] [dupB, { language := "AL", url := "https://example.com/al.md" }] =
      [dupB, { language := "AL", url := "https://example.com/al.md" }] := by
  have hnd : (([dupB, { language := "AL", url := "https://example.com/al.md" }].map
      sourceKey)).Nodup := by decide
  exact ⟨hnd,
    (c2_merge_shortcircuits []
      [dupB, { language := "AL", url := "https://example.com/al.md" }]).2.2.2.1 hnd⟩

/-- Counterexample for C3: when the remote layer is empty, the merged list
returned by `getInstructionSources` can contain two distinct entries with
equal identity keys (the short-circuit skips deduplication). -/
theorem c3_counterexample :
    getInstructionSources (some []) [dupA, dupB] = [dupA, dupB] ∧
    sourceKey dupA = sourceKey dupB ∧ dupA ≠ dupB ∧
    ¬ ((getInstructionSources (some []) [dupA, dupB]).map sourceKey).Nodup := by
  refine ⟨rfl, by decide, by decide, by decide⟩

/-- C3 (amended): when both layers are non-empty — so the general keyed-map
merge actually runs — the merged list has pairwise distinct identity keys,
and for any key present in both layers the merged entry is the local layer's
(most recent) entry for that key, replaced whole. -/
theorem c3_merge_invariant (R L : List InstructionSource)
    (hR : R ≠ []) (hL : L ≠ []) :
    ((getInstructionSources (some R) L).map sourceKey).Nodup ∧
    ∀ k, k ∈ R.map sourceKey → k ∈ L.map sourceKey →
      ∀ s ∈ getInstructionSources (some R) L, sourceKey s = k →
        lastWithKey L k = some s := by
  have hout : getInstructionSources (some R) L = mergeSources R L := by
    show (if R = [] then L else if L = [] then R else mergeSources R L) = mergeSources R L
    rw [if_neg hR, if_neg hL]
  have hwfnil : entriesWf [] := by intro p hp; simp at hp
  have hwf : entriesWf (insertSources (insertSources [] R) L) :=
    entriesWf_insertSources _ _ (entriesWf_insertSources _ _ hwfnil)
  have hnd : ((insertSources (insertSources [] R) L).map Prod.fst).Nodup :=
    nodup_keys_insertSources _ _ (nodup_keys_insertSources _ _ (by simp))
  have hkeys : (insertSources (insertSources [] R) L).map Prod.fst =
      (mergeSources R L).map sourceKey := by
    rw [keys_eq_map_sourceKey hwf]
    rfl
  constructor
  · rw [hout, ← hkeys]
    exact hnd
  · intro k hkR hkL s hs hk
    rw [hout] at hs
    obtain ⟨p, hp, hps⟩ := List.mem_map.mp hs
    have hpk : p.1 = sourceKey p.2 := hwf p hp
    have hmem : (k, s) ∈ insertSources (insertSources [] R) L := by
      obtain ⟨p1, p2⟩ := p
      have hp2 : p2 = s := hps
      subst hp2
      have hp1 : p1 = k := by
        have hfst : p1 = sourceKey p2 := hpk
        rw [hfst, hk]
      subst hp1
      exact hp
    have hlook : lookupVal (insertSources (insertSources [] R) L) k = some s :=
      lookupVal_eq_some_of_mem hnd hmem
    rw [lookupVal_insertSources] at hlook
    obtain ⟨t, ht⟩ := lastWithKey_isSome hkL
    rw [ht] at hlook
    simp only at hlook
    rw [ht]
    exact congrArg some (Option.some.inj hlook)

/-- Witness for C3 (amended): a one-entry remote layer and a two-entry local
layer sharing the key of `dupA`/`dupB`; the merged list is duplicate-free
and the shared key maps to the local entry `dupB`. -/
theorem c3_witness :
    (((getInstructionSources (some [dupA]) [dupB,
        { language := "AL", url := "https://example.com/al.md" }]).map sourceKey).Nodup) ∧
    lastWithKey [dupB, { language := "AL", url := "https://example.com/al.md" }]
        (sourceKey dupA) = some dupB := by
  have h := c3_merge_invariant [dupA]
    [dupB, { language := "AL", url := "https://example.com/al.md" }]
    (by simp) (by simp)
  refine ⟨h.1, ?_⟩
  exact h.2 (sourceKey dupA) (by decide) (by decide)
    dupB (by decide) (by decide)
end InstructionSync

namespace InstructionSync

/-- Every detected language is one of the fixed table's names, which are all
non-empty — so the JS-truthiness test on the found language never rejects a
real detection result. -/
theorem detect_lang_ne_empty {root : WorkspaceRoot} {lang : String}
    (h : lang ∈ detectWorkspaceLanguage root) : lang ≠ "" := by
  unfold detectWorkspaceLanguage at h
  obtain ⟨lp, hlp, heq⟩ := List.mem_filterMap.mp h
  by_cases hc : lp.2.any root.hasFiles = true
  · rw [if_pos hc] at heq
    injection heq with he
    subst he
    have hall : ∀ q ∈ languagePatterns, q.1 ≠ "" := by decide
    exact hall lp hlp
  · rw [if_neg hc] at heq
    cases heq

/-- C1: in a `performSync` run, for every workspace folder whose detected
language set is non-empty, every source with `enabled !== false` whose
language case-insensitively matches a detected language receives a sync call
— membership in the plan holds for each such source, so processing does not
stop at the first match. -/
theorem c1_performSync_syncs_every_matching_source
    (roots : List WorkspaceRoot) (sources : List InstructionSource)
    (root : WorkspaceRoot) (source : InstructionSource)
    (hroot : root ∈ roots)
    (hdet : detectWorkspaceLanguage root ≠ [])
    (hsrc : source ∈ sources)
    (hen : source.enabled ≠ some false)
    (hmatch : ∃ lang ∈ detectWorkspaceLanguage root,
      jsLower lang = jsLower source.language) :
    (root, source) ∈ performSyncPlan roots sources := by
  have hsne : ¬ (sources = []) := by
    intro h0
    rw [h0] at hsrc
    cases hsrc
  unfold performSyncPlan
  rw [if_neg hsne]
  apply List.mem_flatMap.mpr
  refine ⟨root, hroot, ?_⟩
  rw [if_neg hdet]
  apply List.mem_filterMap.mpr
  refine ⟨source, hsrc, ?_⟩
  rw [if_neg hen]
  have hfind : ((detectWorkspaceLanguage root).find?
      (fun lang => jsLower lang = jsLower source.language)).isSome = true := by
    apply List.find?_isSome.mpr
    obtain ⟨lang, hl, he⟩ := hmatch
    exact ⟨lang, hl, by simpa using he⟩
  obtain ⟨m, hm⟩ := Option.isSome_iff_exists.mp hfind
  have hmmem : m ∈ detectWorkspaceLanguage root := List.mem_of_find?_eq_some hm
  have hmne : m ≠ "" := detect_lang_ne_empty hmmem
  rw [hm]
  show (if m = "" then none else some (root, source)) = some (root, source)
  rw [if_neg hmne]

/-- Witness for C1: a workspace with both C# and TypeScript files syncs both
of two matching sources — in particular the second matching source for the
same folder is still synced. -/
theorem c1_witness :
    ({ name := "app", hasFiles := fun p => p = "**/*.cs" || p = "**/*.ts" : WorkspaceRoot},
      ({ language := "typescript", url := "https://example.com/ts.md" } : InstructionSource)) ∈
      performSyncPlan
        [{ name := "app", hasFiles := fun p => p = "**/*.cs" || p = "**/*.ts" }]
        [{ language := "C#", url := "https://example.com/cs.md" },
         { language := "typescript", url := "https://example.com/ts.md" }] := by
  apply c1_performSync_syncs_every_matching_source
  · exact List.mem_cons_self _ _
  · decide
  · exact List.mem_cons_of_mem _ (List.mem_cons_self _ _)
  · decide
  · exact ⟨"TypeScript", by decide, by decide⟩

end InstructionSync

namespace InstructionSync

/-- Once a session's `confirmAll` is set, no later `syncInstructions` call
resets it: the only mutation of the session sets `confirmAll := true`, and it
sits behind the prompt, which is skipped while `confirmAll` holds. -/
theorem syncInstructions_session_stable (fetched : Except String String)
    (l : Option String) (rc cbs : Bool) (ch : UserChoice) :
    (syncInstructions fetched l rc cbs (some ⟨true⟩) ch).session = some ⟨true⟩ := by
  cases fetched with
  | error e => rfl
  | ok c =>
    by_cases hd : l = some c
    · simp [syncInstructions, hd]
    · simp [syncInstructions, hd, sessionConfirmAll]

/-- C4: in a session started with `confirmAll = false`, a "Yes to All" answer
on a prompted, changed file writes the file and flips the session to
`confirmAll = true`; from then on every call in the same session — for any
fetched content that differs from the local content, any confirmation
settings, and any (never-consulted) prompt answer — skips the prompt,
writes, and keeps `confirmAll` set. -/
theorem c4_yes_to_all_session (c₁ : String) (l₁ : Option String)
    (hdiff₁ : l₁ ≠ some c₁) :
    (syncInstructions (Except.ok c₁) l₁ true true (some ⟨false⟩)
        UserChoice.yesToAll).session = some ⟨true⟩ ∧
    (syncInstructions (Except.ok c₁) l₁ true true (some ⟨false⟩)
        UserChoice.yesToAll).written = some c₁ ∧
    (∀ (c₂ : String) (l₂ : Option String) (rc cbs : Bool) (choice : UserChoice),
      l₂ ≠ some c₂ →
      (syncInstructions (Except.ok c₂) l₂ rc cbs
          (syncInstructions (Except.ok c₁) l₁ true true (some ⟨false⟩)
            UserChoice.yesToAll).session choice).promptShown = false ∧
      (syncInstructions (Except.ok c₂) l₂ rc cbs
          (syncInstructions (Except.ok c₁) l₁ true true (some ⟨false⟩)
            UserChoice.yesToAll).session choice).written = some c₂) ∧
    (∀ (fetched : Except String String) (l₂ : Option String) (rc cbs : Bool)
        (ch : UserChoice),
      (syncInstructions fetched l₂ rc cbs (some ⟨true⟩) ch).session = some ⟨true⟩) := by
  have hfirst : syncInstructions (Except.ok c₁) l₁ true true (some ⟨false⟩)
      UserChoice.yesToAll =
      { returned := true, written := some c₁, promptShown := true, errorShown := false,
        session := some ⟨true⟩, confirmBeforeSync := true } := by
    simp [syncInstructions, hdiff₁, sessionConfirmAll]
  refine ⟨by rw [hfirst], by rw [hfirst], ?_, ?_⟩
  · intro c₂ l₂ rc cbs choice hdiff₂
    rw [hfirst]
    constructor
    · simp [syncInstructions, hdiff₂, sessionConfirmAll]
    · simp [syncInstructions, hdiff₂, sessionConfirmAll]
  · intro fetched l₂ rc cbs ch
    exact syncInstructions_session_stable fetched l₂ rc cbs ch

/-- Witness for C4: after "Yes to All" on a create (no local file), a later
differing file is written with no prompt, and the session still has
`confirmAll` set afterwards. -/
theorem c4_witness :
    (syncInstructions (Except.ok "v1") none true true (some ⟨false⟩)
        UserChoice.yesToAll).session = some ⟨true⟩ ∧
    (syncInstructions (Except.ok "v2") (some "old") true true
        (syncInstructions (Except.ok "v1") none true true (some ⟨false⟩)
          UserChoice.yesToAll).session UserChoice.dismissed).promptShown = false ∧
    (syncInstructions (Except.ok "v2") (some "old") true true
        (syncInstructions (Except.ok "v1") none true true (some ⟨false⟩)
          UserChoice.yesToAll).session UserChoice.dismissed).written = some "v2" := by
  have h := c4_yes_to_all_session "v1" none (by simp)
  have h2 := h.2.2.1 "v2" (some "old") true true UserChoice.dismissed (by simp)
  exact ⟨h.1, h2.1, h2.2⟩

end InstructionSync
